import Mathlib

/-!
Shallow embedding of the anchor plugin's core logic
(`findanchorrange.js`, `anchorcommand.js`, `unanchorcommand.js`).

The host editing framework's document model is embedded as a flat list of
inline sibling nodes (all behavior of this plugin operates on runs of
siblings and on attribute mutations over ranges of siblings).  Positions,
ranges, per-node attribute maps, the selection and the writer primitives
(`setAttribute`, `removeAttribute`, `insertContent`, `getValidRanges`)
are modelled after the host framework's documented contracts; the plugin
functions themselves (`findAnchorRange`, `_findBound`,
`AnchorCommand.execute`, `UnanchorCommand.execute`) are translated
statement by statement from the source.
-/

namespace Anchor

/-- Attribute values occurring in this plugin: the `anchorId` attribute holds
a string and manual-decorator attributes hold booleans. -/
inductive AttrValue where
  | str (s : String)
  | boolean (b : Bool)
deriving DecidableEq, Repr

/-- Partial model of JavaScript `ToNumber` on strings, as needed for loose
equality between a boolean and a string: the empty (or all-whitespace) string
converts to 0, a nonnegative decimal literal to its value, and any other
string to a non-integral value (modelled as `none`, which is never equal to
0 or 1).  Within this plugin `anchorId` is only ever assigned a string, so
the boolean-vs-string comparison is unreachable in reachable documents. -/
def jsStrToNumber? (s : String) : Option Nat :=
  let t := s.trim
  if t = "" then some 0 else t.toNat?

/-- JavaScript loose equality `x == y` on the value space of this plugin
(`undefined`, strings, booleans), as used by
`node.getAttribute('anchorId') == value` in `_findBound`.  `undefined` is
loosely equal only to `undefined`; two strings compare by string equality;
two booleans by boolean equality; a boolean against a string compares the
string's `ToNumber` against 1 or 0. -/
def jsEq : Option AttrValue → Option AttrValue → Bool
  | none, none => true
  | none, some _ => false
  | some _, none => false
  | some (.str a), some (.str b) => a == b
  | some (.boolean a), some (.boolean b) => a == b
  | some (.str a), some (.boolean b) => jsStrToNumber? a == some (if b then 1 else 0)
  | some (.boolean a), some (.str b) => jsStrToNumber? b == some (if a then 1 else 0)

/-- Kind of an inline node: a text run or an embedded object element
(the host model distinguishes them; the anchor resolver does not). -/
inductive NodeKind where
  | text
  | element (name : String)
deriving DecidableEq, Repr

/-- An inline content node: a kind, text data (empty for elements) and an
ordered attribute map (association list, keys unique by construction of the
operations below). -/
structure Node where
  kind : NodeKind
  data : String
  attrs : List (String × AttrValue)
deriving DecidableEq, Repr

/-- Attribute lookup in a node's attribute map (`node.getAttribute(key)`);
`none` models JavaScript `undefined`. -/
def lookupAttr : List (String × AttrValue) → String → Option AttrValue
  | [], _ => none
  | p :: rest, k => if p.1 == k then some p.2 else lookupAttr rest k

/-- Attribute lookup on a node (`node.getAttribute(key)`). -/
def getAttr (n : Node) (k : String) : Option AttrValue :=
  lookupAttr n.attrs k

/-- Set a key in an attribute map, replacing an existing binding in place or
appending a new one (the host model's `Map.set`). -/
def setAttrList : List (String × AttrValue) → String → AttrValue → List (String × AttrValue)
  | [], k, v => [(k, v)]
  | p :: rest, k, v => if p.1 == k then (k, v) :: rest else p :: setAttrList rest k v

/-- Remove a key from an attribute map (the host model's `Map.delete`). -/
def removeAttrList (l : List (String × AttrValue)) (k : String) : List (String × AttrValue) :=
  l.filter (fun p => !(p.1 == k))

/-- The document: an ordered sequence of inline sibling nodes. -/
abbrev Doc := List Node

/-- A model position: either in the gap before node `i` (`between i`, with
`i` = document length meaning the end) or strictly inside the text node at
index `i`, `off` characters in (`position.textNode` is then that node). -/
inductive Position where
  | between (i : Nat)
  | inside (i : Nat) (off : Nat)
deriving DecidableEq, Repr

/-- A model range delimited by two positions. -/
structure ModelRange where
  startPos : Position
  endPos : Position
deriving DecidableEq, Repr

/-- Indices of the nodes entirely covered by a range.  A collapsed range
covers no node; a range with a bound strictly inside a text node would cover
that node only partially, and the ranges this plugin mutates are always
node-aligned or collapsed, so such ranges cover no whole node. -/
def ModelRange.coveredNodes : ModelRange → List Nat
  | ⟨.between a, .between b⟩ => List.range' a (b - a)
  | _ => []

/-- The loop condition of `_findBound`:
`node && node.getAttribute('anchorId') == value` at node index `j`
(`false` past the ends of the sequence, where there is no sibling). -/
def matchesAt (d : Doc) (j : Nat) (v : Option AttrValue) : Bool :=
  match d[j]? with
  | some n => jsEq (getAttr n "anchorId") v
  | none => false

/-- Backward walk of `_findBound` (`lookBack = true`): starting at node
index `j`, walk to previous siblings while they match `v`; result is the
index of the last matching node, `none` when the start node already fails. -/
def walkBack (d : Doc) (v : Option AttrValue) : Nat → Option Nat
  | 0 => if matchesAt d 0 v then some 0 else none
  | j + 1 =>
    if matchesAt d (j + 1) v then
      match walkBack d v j with
      | some k => some k
      | none => some (j + 1)
    else none

/-- Forward walk of `_findBound` (`lookBack = false`), fuelled: starting at
node index `j`, walk to next siblings while they match `v`; result is the
index of the last matching node. -/
def walkFwdAux (d : Doc) (v : Option AttrValue) : Nat → Nat → Option Nat
  | 0, _ => none
  | fuel + 1, j =>
    if matchesAt d j v then
      match walkFwdAux d v fuel (j + 1) with
      | some k => some k
      | none => some j
    else none

/-- Forward walk of `_findBound` from index `j`; `d.length - j` fuel is
exactly enough to reach the end of the sibling sequence. -/
def walkFwd (d : Doc) (j : Nat) (v : Option AttrValue) : Option Nat :=
  walkFwdAux d v (d.length - j) j

/-- The start node of `_findBound`'s walk:
`position.textNode || (lookBack ? position.nodeBefore : position.nodeAfter)`. -/
def startNode (d : Doc) (p : Position) (lookBack : Bool) : Option Nat :=
  match p with
  | .inside i _ => some i
  | .between i =>
    if lookBack then (if i = 0 then none else some (i - 1))
    else (if i < d.length then some i else none)

/-- Translation of `_findBound(position, value, lookBack, model)`: walk node
by node from the start node while the `anchorId` attribute loosely equals
`value`; return the position just before (resp. after) the last matched node,
or `position` itself when no node matched. -/
def findBound (d : Doc) (p : Position) (v : Option AttrValue) (lookBack : Bool) : Position :=
  match startNode d p lookBack with
  | none => p
  | some j =>
    match (if lookBack then walkBack d v j else walkFwd d j v) with
    | some k => if lookBack then .between k else .between (k + 1)
    | none => p

/-- Translation of `findAnchorRange(position, value, model)`: the range from
the backward bound to the forward bound. -/
def findAnchorRange (d : Doc) (p : Position) (v : Option AttrValue) : ModelRange :=
  ⟨findBound d p v true, findBound d p v false⟩

/-- The document selection: a list of ranges plus the selection's own
attribute overlay (the attributes that would apply to text typed at the
caret, read by `selection.getAttribute`/`hasAttribute`/`getAttributes`). -/
structure Selection where
  ranges : List ModelRange
  attrs : List (String × AttrValue)
deriving DecidableEq, Repr

/-- The host framework's `selection.isCollapsed`: exactly one range and that
range is collapsed. -/
def Selection.isCollapsed (s : Selection) : Bool :=
  match s.ranges with
  | [r] => r.startPos == r.endPos
  | _ => false

/-- The host framework's `selection.getFirstPosition()`.  A document
selection always has at least one range; the empty case is unreachable and
defaults to the document start. -/
def Selection.getFirstPosition (s : Selection) : Position :=
  match s.ranges with
  | r :: _ => r.startPos
  | [] => .between 0

/-- Editor state visible to the two commands: the document plus the
selection. -/
structure EditorState where
  doc : Doc
  sel : Selection
deriving DecidableEq, Repr

/-- Map `f` over the nodes whose index satisfies `ok`, indices counted from
`i` (helper for the ranged writer primitives). -/
def applyAtAux (f : Node → Node) (ok : Nat → Bool) : Nat → Doc → Doc
  | _, [] => []
  | i, n :: rest => (if ok i then f n else n) :: applyAtAux f ok (i + 1) rest

/-- Set an attribute on a node. -/
def setAttrNode (n : Node) (k : String) (v : AttrValue) : Node :=
  { n with attrs := setAttrList n.attrs k v }

/-- Remove an attribute from a node. -/
def removeAttrNode (n : Node) (k : String) : Node :=
  { n with attrs := removeAttrList n.attrs k }

/-- The host writer's `writer.setAttribute(key, value, range)`: set the
attribute on every node covered by the range. -/
def setAttributeRange (d : Doc) (k : String) (v : AttrValue) (r : ModelRange) : Doc :=
  applyAtAux (fun n => setAttrNode n k v) (fun i => r.coveredNodes.contains i) 0 d

/-- The host writer's `writer.removeAttribute(key, range)`: remove the
attribute from every node covered by the range. -/
def removeAttributeRange (d : Doc) (k : String) (r : ModelRange) : Doc :=
  applyAtAux (fun n => removeAttrNode n k) (fun i => r.coveredNodes.contains i) 0 d

/-- The host model's `model.insertContent(node, position)` at a collapsed
position, without the host's post-insertion text-node merging (maintained by
the host model, not by this plugin): inserting in a gap splices the node in;
inserting strictly inside a text node splits that node around the insertion.
Returns the new document and the index of the inserted node. -/
def insertContentAt (d : Doc) (p : Position) (n : Node) : Doc × Nat :=
  match p with
  | .between i =>
    let j := min i d.length
    (d.take j ++ n :: d.drop j, j)
  | .inside i off =>
    match d[i]? with
    | some tn =>
      (d.take i ++ { tn with data := tn.data.take off } :: n ::
        { tn with data := tn.data.drop off } :: d.drop (i + 1), i + 1)
    | none => (d ++ [n], d.length)

/-- Whether the schema allows the `anchorId` attribute on the node at index
`j` (the host schema decides by the item's kind; out-of-document indices
allow nothing). -/
def allowsAt (allows : NodeKind → Bool) (d : Doc) (j : Nat) : Bool :=
  match d[j]? with
  | some n => allows n.kind
  | none => false

/-- Maximal runs of consecutive indices in `[a, b)` satisfying `ok`, as
half-open index pairs (helper for `getValidRanges`), fuelled recursion. -/
def validRunsAux (ok : Nat → Bool) : Nat → Nat → Nat → List (Nat × Nat)
  | 0, _, _ => []
  | fuel + 1, a, b =>
    if a < b then
      if ok a then
        match validRunsAux ok fuel (a + 1) b with
        | [] => [(a, a + 1)]
        | (s, e) :: rest => if s = a + 1 then (a, e) :: rest else (a, a + 1) :: (s, e) :: rest
      else validRunsAux ok fuel (a + 1) b
    else []

/-- Maximal runs of consecutive indices in `[a, b)` satisfying `ok`;
`b - a` fuel is exactly enough. -/
def validRuns (ok : Nat → Bool) (a b : Nat) : List (Nat × Nat) :=
  validRunsAux ok (b - a) a b

/-- The host schema's `schema.getValidRanges(ranges, 'anchorId')`: restrict
the given node-aligned ranges to the maximal sub-ranges whose nodes all
allow the attribute (a range with a bound inside a text node contributes no
whole node). -/
def getValidRanges (allows : NodeKind → Bool) (d : Doc) (rs : List ModelRange) : List ModelRange :=
  (rs.map (fun r =>
    match r with
    | ⟨Position.between a, Position.between b⟩ =>
      (validRuns (fun j => allowsAt allows d j) a b).map
        (fun pr => ⟨Position.between pr.1, Position.between pr.2⟩)
    | _ => ([] : List ModelRange))).flatten

/-- Names pushed to `truthyManualDecorators` in `AnchorCommand.execute`:
the decorator flags passed as `true`. -/
def truthyNames (flags : List (String × Bool)) : List String :=
  flags.filterMap (fun p => if p.2 then some p.1 else none)

/-- Names pushed to `falsyManualDecorators` in `AnchorCommand.execute`:
the decorator flags passed as `false`. -/
def falsyNames (flags : List (String × Bool)) : List String :=
  flags.filterMap (fun p => if p.2 then none else some p.1)

/-- The writer-call block `AnchorCommand.execute` performs on one range
(both on the resolved collapsed span and on each valid range of a
non-collapsed selection): set `anchorId` to `id`, set every truthy decorator
attribute to `true`, then remove every falsy decorator attribute. -/
def applyAnchorToRange (id : String) (t f : List String) (d : Doc) (r : ModelRange) : Doc :=
  let d1 := setAttributeRange d "anchorId" (.str id) r
  let d2 := t.foldl (fun acc item => setAttributeRange acc item (.boolean true) r) d1
  f.foldl (fun acc item => removeAttributeRange acc item r) d2

/-- Translation of `AnchorCommand.execute(id, manualDecoratorIds)`.
`allows` is the host schema gate for the `anchorId` attribute.  Collapsed
selection inside an `anchorId` span: resolve the span, set/remove the
attributes over it, select the span.  Collapsed selection outside a span:
insert a new text node with data `id` and the ambient attributes plus
`anchorId` and the truthy decorators, unless `id` is empty.  Non-collapsed
selection: apply the same attribute changes over each schema-valid
sub-range.  `writer.setSelection` replaces the selection's ranges (its
attribute overlay is recomputed by the host engine afterwards, modelled as
empty; no property below depends on it). -/
def anchorExecute (allows : NodeKind → Bool) (st : EditorState) (id : String)
    (flags : List (String × Bool)) : EditorState :=
  let t := truthyNames flags
  let f := falsyNames flags
  if st.sel.isCollapsed then
    let position := st.sel.getFirstPosition
    match lookupAttr st.sel.attrs "anchorId" with
    | some w =>
      let anchorRange := findAnchorRange st.doc position (some w)
      { doc := applyAnchorToRange id t f st.doc anchorRange,
        sel := { ranges := [anchorRange], attrs := [] } }
    | none =>
      if id ≠ "" then
        let attributes := setAttrList st.sel.attrs "anchorId" (.str id)
        let attributes := t.foldl (fun m item => setAttrList m item (.boolean true)) attributes
        let node : Node := { kind := .text, data := id, attrs := attributes }
        let inserted := insertContentAt st.doc position node
        { doc := inserted.1,
          sel := { ranges := [⟨.between inserted.2, .between (inserted.2 + 1)⟩], attrs := [] } }
      else st
  else
    let ranges := getValidRanges allows st.doc st.sel.ranges
    { doc := ranges.foldl (applyAnchorToRange id t f) st.doc, sel := st.sel }

/-- Translation of `UnanchorCommand.execute()`.  `anchorDecorators` is the
list of decorator attribute names declared on the registered anchor command's
`manualDecorators` collection (`none` when no `anchor` command is
registered).  Collapsed selection: the sole target range is the resolved
span around the caret (resolved with the selection's current `anchorId`
attribute value); otherwise the selection's ranges are the targets, without
schema filtering.  Each target range loses `anchorId` and every declared
decorator attribute.

Body of the loop over `rangesToUnanchor` in `UnanchorCommand.execute()`:
remove the `anchorId` attribute from the range, and, when an `anchor`
command is registered, also remove every declared decorator attribute. -/
def unanchorOneRange (anchorDecorators : Option (List String)) (acc : Doc)
    (range : ModelRange) : Doc :=
  let acc1 := removeAttributeRange acc "anchorId" range
  match anchorDecorators with
  | some decs => decs.foldl (fun a dec => removeAttributeRange a dec range) acc1
  | none => acc1

/-- Translation of the `model.change` body of `UnanchorCommand.execute()`,
iterating `unanchorOneRange` over the target ranges. -/
def unanchorExecute (st : EditorState) (anchorDecorators : Option (List String)) : EditorState :=
  let rangesToUnanchor :=
    if st.sel.isCollapsed then
      [findAnchorRange st.doc st.sel.getFirstPosition (lookupAttr st.sel.attrs "anchorId")]
    else st.sel.ranges
  { st with doc := rangesToUnanchor.foldl (unanchorOneRange anchorDecorators) st.doc }

/-! Derived notions used to state and prove properties. -/

/-- Node-level effect of `applyAnchorToRange` on one covered node: set
`anchorId` to `id`, set the truthy decorator attributes, remove the falsy
decorator attributes. -/
def applyAnchorAttrs (n : Node) (id : String) (t f : List String) : Node :=
  let n1 := setAttrNode n "anchorId" (.str id)
  let n2 := t.foldl (fun m item => setAttrNode m item (.boolean true)) n1
  f.foldl (fun m item => removeAttrNode m item) n2

/-- The editor state produced by the insertion path of
`AnchorCommand.execute` (collapsed selection outside a span, nonempty id):
a new text node with data `id`, carrying the selection's ambient attributes
plus `anchorId` and the truthy decorators, inserted at the caret and then
wrapped by the selection. -/
def insertNewAnchorState (st : EditorState) (id : String)
    (flags : List (String × Bool)) : EditorState :=
  let attributes := (truthyNames flags).foldl
    (fun m item => setAttrList m item (.boolean true))
    (setAttrList st.sel.attrs "anchorId" (.str id))
  let node : Node := { kind := .text, data := id, attrs := attributes }
  let inserted := insertContentAt st.doc st.sel.getFirstPosition node
  { doc := inserted.1,
    sel := { ranges := [⟨.between inserted.2, .between (inserted.2 + 1)⟩], attrs := [] } }

/-- Node-level effect of `unanchorOneRange` on one covered node: remove the
`anchorId` attribute and every declared decorator attribute. -/
def unanchorNodeAttrs (n : Node) (anchorDecorators : Option (List String)) : Node :=
  let n1 := removeAttrNode n "anchorId"
  match anchorDecorators with
  | some decs => decs.foldl (fun m dec => removeAttrNode m dec) n1
  | none => n1

/-- The attribute value a node covered by `applyAnchorToRange` ends up with
at key `k`: removal of falsy decorators wins over everything, truthy
decorators come next, then the `anchorId` assignment, and any other key is
untouched. -/
def anchorTargetAttr (n : Node) (id : String) (t f : List String) (k : String) : Option AttrValue :=
  if k ∈ f then none
  else if k ∈ t then some (.boolean true)
  else if k = "anchorId" then some (.str id)
  else getAttr n k

/-- Whether node index `j` is covered by at least one of the ranges. -/
def coveredByAny (rs : List ModelRange) (j : Nat) : Bool :=
  rs.any (fun r => r.coveredNodes.contains j)

/-- Whether node index `j` is covered by at least one run. -/
def coveredByRuns (runs : List (Nat × Nat)) (j : Nat) : Bool :=
  runs.any (fun pr => decide (pr.1 ≤ j) && decide (j < pr.2))

/-- A maximal run of nodes in `[a, b)` whose `anchorId` attribute loosely
matches `v`: nonempty, within the document, all nodes matching, and not
extendable on either side. -/
def IsRun (d : Doc) (a b : Nat) (v : Option AttrValue) : Prop :=
  a < b ∧ b ≤ d.length ∧
  (∀ j, j < b → a ≤ j → matchesAt d j v = true) ∧
  (a = 0 ∨ matchesAt d (a - 1) v = false) ∧
  matchesAt d b v = false

instance (d : Doc) (a b : Nat) (v : Option AttrValue) : Decidable (IsRun d a b v) := by
  unfold IsRun; infer_instance

/-- A position strictly inside the run of nodes `[a, b)`: in a gap strictly
between two run nodes, or inside a text node of the run. -/
def StrictlyInside (p : Position) (a b : Nat) : Prop :=
  match p with
  | .between i => a < i ∧ i < b
  | .inside i _ => a ≤ i ∧ i < b

instance (p : Position) (a b : Nat) : Decidable (StrictlyInside p a b) := by
  unfold StrictlyInside; cases p <;> infer_instance

/-! Lemmas about attribute maps. -/

theorem lookupAttr_setAttrList (l : List (String × AttrValue)) (k k' : String) (v : AttrValue) :
    lookupAttr (setAttrList l k v) k' = if k = k' then some v else lookupAttr l k' := by
  induction l with
  | nil => simp [setAttrList, lookupAttr]
  | cons p rest ih =>
    rcases p with ⟨pk, pv⟩
    by_cases h1 : pk = k
    · subst h1
      by_cases h2 : pk = k' <;> simp [setAttrList, lookupAttr, h2]
    · by_cases h2 : pk = k'
      · subst h2
        have hk : ¬ k = pk := fun he => h1 he.symm
        simp [setAttrList, lookupAttr, h1, hk]
      · simp [setAttrList, lookupAttr, h1, h2, ih]

theorem lookupAttr_removeAttrList (l : List (String × AttrValue)) (k k' : String) :
    lookupAttr (removeAttrList l k) k' = if k = k' then none else lookupAttr l k' := by
  induction l with
  | nil => simp [removeAttrList, lookupAttr]
  | cons p rest ih =>
    rcases p with ⟨pk, pv⟩
    by_cases h1 : pk = k
    · subst h1
      have := ih
      by_cases h2 : pk = k'
      · subst h2
        simpa [removeAttrList, lookupAttr] using ih
      · have hk : ¬ pk = k' := h2
        simpa [removeAttrList, lookupAttr, hk] using ih
    · by_cases h2 : pk = k'
      · subst h2
        have hk : ¬ k = pk := fun he => h1 he.symm
        simp [removeAttrList, lookupAttr, h1, hk]
      · simpa [removeAttrList, lookupAttr, h1, h2] using ih

theorem getAttr_setAttrNode (n : Node) (k k' : String) (v : AttrValue) :
    getAttr (setAttrNode n k v) k' = if k = k' then some v else getAttr n k' := by
  simp [getAttr, setAttrNode, lookupAttr_setAttrList]

theorem getAttr_removeAttrNode (n : Node) (k k' : String) :
    getAttr (removeAttrNode n k) k' = if k = k' then none else getAttr n k' := by
  simp [getAttr, removeAttrNode, lookupAttr_removeAttrList]

theorem getAttr_foldl_setAttrNode (names : List String) (n : Node) (v : AttrValue) (k : String) :
    getAttr (names.foldl (fun m item => setAttrNode m item v) n) k =
      if k ∈ names then some v else getAttr n k := by
  induction names generalizing n with
  | nil => simp
  | cons x xs ih =>
    by_cases hxs : k ∈ xs
    · simp [List.foldl_cons, ih, hxs]
    · by_cases hx : x = k
      · simp [List.foldl_cons, ih, hxs, hx, getAttr_setAttrNode]
      · have : ¬ k ∈ x :: xs := by
          intro hmem
          rcases List.mem_cons.mp hmem with h | h
          · exact hx h.symm
          · exact hxs h
        simp [List.foldl_cons, ih, hxs, this, getAttr_setAttrNode, hx]

theorem getAttr_foldl_removeAttrNode (names : List String) (n : Node) (k : String) :
    getAttr (names.foldl (fun m item => removeAttrNode m item) n) k =
      if k ∈ names then none else getAttr n k := by
  induction names generalizing n with
  | nil => simp
  | cons x xs ih =>
    by_cases hxs : k ∈ xs
    · simp [List.foldl_cons, ih, hxs]
    · by_cases hx : x = k
      · simp [List.foldl_cons, ih, hxs, hx, getAttr_removeAttrNode]
      · have : ¬ k ∈ x :: xs := by
          intro hmem
          rcases List.mem_cons.mp hmem with h | h
          · exact hx h.symm
          · exact hxs h
        simp [List.foldl_cons, ih, hxs, this, getAttr_removeAttrNode, hx]

theorem getAttr_applyAnchorAttrs (n : Node) (id : String) (t f : List String) (k : String) :
    getAttr (applyAnchorAttrs n id t f) k = anchorTargetAttr n id t f k := by
  unfold applyAnchorAttrs anchorTargetAttr
  by_cases hf : k ∈ f
  · simp [getAttr_foldl_removeAttrNode, hf]
  · by_cases ht : k ∈ t
    · simp [getAttr_foldl_removeAttrNode, getAttr_foldl_setAttrNode, hf, ht]
    · by_cases hid : k = "anchorId"
      · simp [getAttr_foldl_removeAttrNode, getAttr_foldl_setAttrNode, hf, ht,
          getAttr_setAttrNode, hid]
      · have : ¬ "anchorId" = k := fun he => hid he.symm
        simp [getAttr_foldl_removeAttrNode, getAttr_foldl_setAttrNode, hf, ht,
          getAttr_setAttrNode, this, hid]

theorem getAttr_unanchorNodeAttrs (n : Node) (decs : Option (List String)) (k : String) :
    getAttr (unanchorNodeAttrs n decs) k =
      if k = "anchorId" ∨ k ∈ decs.getD [] then none else getAttr n k := by
  unfold unanchorNodeAttrs
  cases decs with
  | none =>
    by_cases hid : k = "anchorId"
    · simp [getAttr_removeAttrNode, hid]
    · have : ¬ "anchorId" = k := fun he => hid he.symm
      simp [getAttr_removeAttrNode, hid, this]
  | some l =>
    by_cases hl : k ∈ l
    · simp [getAttr_foldl_removeAttrNode, hl]
    · by_cases hid : k = "anchorId"
      · simp [getAttr_foldl_removeAttrNode, hl, getAttr_removeAttrNode, hid]
      · have : ¬ "anchorId" = k := fun he => hid he.symm
        simp [getAttr_foldl_removeAttrNode, hl, getAttr_removeAttrNode, hid, this]

/-! Lemmas about ranged writer operations. -/

theorem applyAtAux_getElem (f : Node → Node) (ok : Nat → Bool) (i : Nat) (d : Doc) (j : Nat) :
    (applyAtAux f ok i d)[j]? = (d[j]?).map (fun n => if ok (i + j) then f n else n) := by
  induction d generalizing i j with
  | nil => simp [applyAtAux]
  | cons n rest ih =>
    cases j with
    | zero => simp [applyAtAux]
    | succ k =>
      have harith : i + 1 + k = i + (k + 1) := by omega
      simp [applyAtAux, ih, harith]

theorem applyAtAux_id (ok : Nat → Bool) (i : Nat) (d : Doc) :
    applyAtAux (fun n => n) ok i d = d := by
  induction d generalizing i with
  | nil => rfl
  | cons n rest ih => simp [applyAtAux, ih]

theorem applyAtAux_comp (f g : Node → Node) (ok : Nat → Bool) (i : Nat) (d : Doc) :
    applyAtAux g ok i (applyAtAux f ok i d) = applyAtAux (fun n => g (f n)) ok i d := by
  induction d generalizing i with
  | nil => rfl
  | cons n rest ih =>
    by_cases h : ok i <;> simp [applyAtAux, h, ih]

theorem foldl_setAttributeRange (names : List String) (v : AttrValue) (r : ModelRange) (d : Doc) :
    names.foldl (fun acc item => setAttributeRange acc item v r) d =
      applyAtAux (fun n => names.foldl (fun m item => setAttrNode m item v) n)
        (fun i => r.coveredNodes.contains i) 0 d := by
  induction names generalizing d with
  | nil => simp [applyAtAux_id]
  | cons x xs ih =>
    simp only [List.foldl_cons]
    rw [ih, setAttributeRange, applyAtAux_comp]

theorem foldl_removeAttributeRange (names : List String) (r : ModelRange) (d : Doc) :
    names.foldl (fun acc item => removeAttributeRange acc item r) d =
      applyAtAux (fun n => names.foldl (fun m item => removeAttrNode m item) n)
        (fun i => r.coveredNodes.contains i) 0 d := by
  induction names generalizing d with
  | nil => simp [applyAtAux_id]
  | cons x xs ih =>
    simp only [List.foldl_cons]
    rw [ih, removeAttributeRange, applyAtAux_comp]

theorem applyAnchorToRange_eq (id : String) (t f : List String) (d : Doc) (r : ModelRange) :
    applyAnchorToRange id t f d r =
      applyAtAux (fun n => applyAnchorAttrs n id t f)
        (fun i => r.coveredNodes.contains i) 0 d := by
  unfold applyAnchorToRange applyAnchorAttrs
  rw [foldl_removeAttributeRange, foldl_setAttributeRange, setAttributeRange,
    applyAtAux_comp, applyAtAux_comp]

theorem applyAnchorToRange_getElem (id : String) (t f : List String) (d : Doc) (r : ModelRange)
    (j : Nat) :
    (applyAnchorToRange id t f d r)[j]? =
      (d[j]?).map (fun n => if r.coveredNodes.contains j then applyAnchorAttrs n id t f else n) := by
  rw [applyAnchorToRange_eq, applyAtAux_getElem]
  simp

theorem unanchorOneRange_eq (decs : Option (List String)) (d : Doc) (r : ModelRange) :
    unanchorOneRange decs d r =
      applyAtAux (fun n => unanchorNodeAttrs n decs)
        (fun i => r.coveredNodes.contains i) 0 d := by
  cases decs with
  | none => rfl
  | some l =>
    unfold unanchorOneRange unanchorNodeAttrs
    simp only
    rw [foldl_removeAttributeRange, removeAttributeRange, applyAtAux_comp]

theorem unanchorOneRange_getElem (decs : Option (List String)) (d : Doc) (r : ModelRange)
    (j : Nat) :
    (unanchorOneRange decs d r)[j]? =
      (d[j]?).map (fun n => if r.coveredNodes.contains j then unanchorNodeAttrs n decs else n) := by
  rw [unanchorOneRange_eq, applyAtAux_getElem]
  simp

theorem foldl_anchorRanges_getElem (rs : List ModelRange) (id : String) (t f : List String)
    (d : Doc) (j : Nat) :
    (rs.foldl (applyAnchorToRange id t f) d)[j]? =
      (d[j]?).map (fun n => rs.foldl
        (fun m r => if r.coveredNodes.contains j then applyAnchorAttrs m id t f else m) n) := by
  induction rs generalizing d with
  | nil => simp
  | cons r rest ih =>
    simp only [List.foldl_cons]
    rw [ih, applyAnchorToRange_getElem, Option.map_map]
    rfl

theorem foldl_unanchorRanges_getElem (rs : List ModelRange) (decs : Option (List String))
    (d : Doc) (j : Nat) :
    (rs.foldl (unanchorOneRange decs) d)[j]? =
      (d[j]?).map (fun n => rs.foldl
        (fun m r => if r.coveredNodes.contains j then unanchorNodeAttrs m decs else m) n) := by
  induction rs generalizing d with
  | nil => simp
  | cons r rest ih =>
    simp only [List.foldl_cons]
    rw [ih, unanchorOneRange_getElem, Option.map_map]
    rfl

theorem foldl_anchorNode_notCovered (rs : List ModelRange) (n : Node) (j : Nat) (id : String)
    (t f : List String) (h : coveredByAny rs j = false) :
    rs.foldl (fun m r => if r.coveredNodes.contains j then applyAnchorAttrs m id t f else m) n
      = n := by
  induction rs with
  | nil => rfl
  | cons r rest ih =>
    simp only [coveredByAny, List.any_cons, Bool.or_eq_false_iff] at h
    have hne : ¬ (r.coveredNodes.contains j = true) := by rw [h.1]; simp
    rw [List.foldl_cons, if_neg hne]
    exact ih h.2

theorem anchorTargetAttr_applyAnchorAttrs (n : Node) (id : String) (t f : List String)
    (k : String) :
    anchorTargetAttr (applyAnchorAttrs n id t f) id t f k = anchorTargetAttr n id t f k := by
  unfold anchorTargetAttr
  by_cases hf : k ∈ f
  · simp [hf]
  · by_cases ht : k ∈ t
    · simp [hf, ht]
    · by_cases hid : k = "anchorId"
      · simp [hf, ht, hid]
      · simp [hf, ht, hid, getAttr_applyAnchorAttrs, anchorTargetAttr]

theorem foldl_anchorNode_covered (rs : List ModelRange) (n : Node) (j : Nat) (id : String)
    (t f : List String) (k : String) (h : coveredByAny rs j = true) :
    getAttr (rs.foldl
        (fun m r => if r.coveredNodes.contains j then applyAnchorAttrs m id t f else m) n) k
      = anchorTargetAttr n id t f k := by
  induction rs generalizing n with
  | nil => simp [coveredByAny] at h
  | cons r rest ih =>
    rw [List.foldl_cons]
    by_cases hr : r.coveredNodes.contains j = true
    · rw [if_pos hr]
      by_cases hrest : coveredByAny rest j = true
      · rw [ih _ hrest, anchorTargetAttr_applyAnchorAttrs]
      · rw [foldl_anchorNode_notCovered rest _ j id t f (by simpa using hrest),
          getAttr_applyAnchorAttrs]
    · have hrest : coveredByAny rest j = true := by
        simp only [coveredByAny, List.any_cons] at h
        rcases Bool.or_eq_true_iff.mp h with h' | h'
        · exact absurd h' hr
        · exact h'
      rw [if_neg hr]
      exact ih n hrest

theorem foldl_unanchorNode_notCovered (rs : List ModelRange) (n : Node) (j : Nat)
    (decs : Option (List String)) (h : coveredByAny rs j = false) :
    rs.foldl (fun m r => if r.coveredNodes.contains j then unanchorNodeAttrs m decs else m) n
      = n := by
  induction rs with
  | nil => rfl
  | cons r rest ih =>
    simp only [coveredByAny, List.any_cons, Bool.or_eq_false_iff] at h
    have hne : ¬ (r.coveredNodes.contains j = true) := by rw [h.1]; simp
    rw [List.foldl_cons, if_neg hne]
    exact ih h.2

theorem unanchorTarget_unanchorNodeAttrs (n : Node) (decs : Option (List String)) (k : String) :
    (if k = "anchorId" ∨ k ∈ decs.getD [] then none
     else getAttr (unanchorNodeAttrs n decs) k) =
      if k = "anchorId" ∨ k ∈ decs.getD [] then none else getAttr n k := by
  by_cases h : k = "anchorId" ∨ k ∈ decs.getD []
  · simp [h]
  · simp [h, getAttr_unanchorNodeAttrs]

theorem foldl_unanchorNode_covered (rs : List ModelRange) (n : Node) (j : Nat)
    (decs : Option (List String)) (k : String) (h : coveredByAny rs j = true) :
    getAttr (rs.foldl
        (fun m r => if r.coveredNodes.contains j then unanchorNodeAttrs m decs else m) n) k
      = if k = "anchorId" ∨ k ∈ decs.getD [] then none else getAttr n k := by
  induction rs generalizing n with
  | nil => simp [coveredByAny] at h
  | cons r rest ih =>
    rw [List.foldl_cons]
    by_cases hr : r.coveredNodes.contains j = true
    · rw [if_pos hr]
      by_cases hrest : coveredByAny rest j = true
      · rw [ih _ hrest]
        exact unanchorTarget_unanchorNodeAttrs n decs k
      · rw [foldl_unanchorNode_notCovered rest _ j decs (by simpa using hrest),
          getAttr_unanchorNodeAttrs]
    · have hrest : coveredByAny rest j = true := by
        simp only [coveredByAny, List.any_cons] at h
        rcases Bool.or_eq_true_iff.mp h with h' | h'
        · exact absurd h' hr
        · exact h'
      rw [if_neg hr]
      exact ih n hrest

theorem coveredNodes_between (a b j : Nat) :
    (ModelRange.mk (.between a) (.between b)).coveredNodes.contains j
      = (decide (a ≤ j) && decide (j < b)) := by
  show (List.range' a (b - a)).contains j = _
  by_cases h1 : a ≤ j <;> by_cases h2 : j < b <;>
    simp [List.mem_range'_1, h1, h2] <;> omega

/-! Lemmas about the resolver walk. -/

theorem matchesAt_lt_length (d : Doc) (j : Nat) (v : Option AttrValue)
    (h : matchesAt d j v = true) : j < d.length := by
  unfold matchesAt at h
  by_cases hj : j < d.length
  · exact hj
  · rw [List.getElem?_eq_none (by omega)] at h
    simp at h

theorem walkBack_nomatch (d : Doc) (v : Option AttrValue) (j : Nat)
    (h : matchesAt d j v = false) : walkBack d v j = none := by
  cases j <;> simp [walkBack, h]

theorem walkFwdAux_nomatch (d : Doc) (v : Option AttrValue) (fuel j : Nat)
    (h : matchesAt d j v = false) : walkFwdAux d v fuel j = none := by
  cases fuel <;> simp [walkFwdAux, h]

theorem walkBack_run (d : Doc) (v : Option AttrValue) (a j : Nat)
    (hall : ∀ i, i ≤ j → a ≤ i → matchesAt d i v = true)
    (hmax : a = 0 ∨ matchesAt d (a - 1) v = false)
    (haj : a ≤ j) : walkBack d v j = some a := by
  induction j with
  | zero =>
    have ha : a = 0 := Nat.le_zero.mp haj
    subst ha
    simp [walkBack, hall 0 (Nat.le_refl 0) (Nat.le_refl 0)]
  | succ j ih =>
    have hm : matchesAt d (j + 1) v = true :=
      hall (j + 1) (Nat.le_refl _) haj
    by_cases hcase : a ≤ j
    · have hrec : walkBack d v j = some a :=
        ih (fun i hi hai => hall i (Nat.le_trans hi (Nat.le_succ j)) hai) hcase
      simp [walkBack, hm, hrec]
    · have ha : a = j + 1 := by omega
      subst ha
      have hj : matchesAt d j v = false := by
        rcases hmax with h0 | hmx
        · omega
        · simpa using hmx
      simp [walkBack, hm, walkBack_nomatch d v j hj]

theorem walkFwdAux_run (d : Doc) (v : Option AttrValue) (b : Nat)
    (hmax : matchesAt d b v = false) :
    ∀ fuel j, b - j ≤ fuel → j < b →
      (∀ i, i < b → j ≤ i → matchesAt d i v = true) →
      walkFwdAux d v fuel j = some (b - 1) := by
  intro fuel
  induction fuel with
  | zero => intro j hfuel hjb _; omega
  | succ fuel ih =>
    intro j hfuel hjb hall
    have hm : matchesAt d j v = true := hall j hjb (Nat.le_refl j)
    by_cases hnext : j + 1 < b
    · have hrec : walkFwdAux d v fuel (j + 1) = some (b - 1) :=
        ih (j + 1) (by omega) hnext (fun i hi hji => hall i hi (by omega))
      simp [walkFwdAux, hm, hrec]
    · have hb : b = j + 1 := by omega
      subst hb
      have hrec : walkFwdAux d v fuel (j + 1) = none :=
        walkFwdAux_nomatch d v fuel (j + 1) hmax
      simp [walkFwdAux, hm, hrec]

theorem walkFwd_run (d : Doc) (v : Option AttrValue) (b j : Nat)
    (hall : ∀ i, i < b → j ≤ i → matchesAt d i v = true)
    (hmax : matchesAt d b v = false)
    (hjb : j < b) : walkFwd d j v = some (b - 1) := by
  have hb : b ≤ d.length := by
    have := matchesAt_lt_length d (b - 1) v (hall (b - 1) (by omega) (by omega))
    omega
  exact walkFwdAux_run d v b hmax (d.length - j) j (by omega) hjb hall

/-- Claim C1 — for every position strictly inside a maximal run of `n = b - a`
contiguous sibling nodes whose `anchorId` attribute matches `v`,
`findAnchorRange` returns the range from just before the run's first node to
just after its last node, covering exactly those nodes, no matter which node
of the run the position falls in. -/
theorem findAnchorRange_covers_run (d : Doc) (v : Option AttrValue) (a b : Nat) (p : Position)
    (hrun : IsRun d a b v) (hp : StrictlyInside p a b) :
    findAnchorRange d p v = ⟨.between a, .between b⟩ ∧
      (findAnchorRange d p v).coveredNodes = List.range' a (b - a) := by
  obtain ⟨hab, hbl, hall, hmaxl, hmaxr⟩ := hrun
  have hback : findBound d p v true = .between a := by
    cases p with
    | between i =>
      obtain ⟨hai, hib⟩ := hp
      have hi0 : ¬ i = 0 := by omega
      have hwb : walkBack d v (i - 1) = some a :=
        walkBack_run d v a (i - 1)
          (fun i' hi' hai' => hall i' (by omega) hai') hmaxl (by omega)
      simp [findBound, startNode, hi0, hwb]
    | inside i off =>
      obtain ⟨hai, hib⟩ := hp
      have hwb : walkBack d v i = some a :=
        walkBack_run d v a i (fun i' hi' hai' => hall i' (by omega) hai') hmaxl hai
      simp [findBound, startNode, hwb]
  have hfwd : findBound d p v false = .between b := by
    cases p with
    | between i =>
      obtain ⟨hai, hib⟩ := hp
      have hil : i < d.length := by omega
      have hwf : walkFwd d i v = some (b - 1) :=
        walkFwd_run d v b i (fun i' hi' hii' => hall i' hi' (by omega)) hmaxr hib
      have hb1 : b - 1 + 1 = b := by omega
      simp [findBound, startNode, hil, hwf, hb1]
    | inside i off =>
      obtain ⟨hai, hib⟩ := hp
      have hwf : walkFwd d i v = some (b - 1) :=
        walkFwd_run d v b i (fun i' hi' hii' => hall i' hi' (by omega)) hmaxr hib
      have hb1 : b - 1 + 1 = b := by omega
      simp [findBound, startNode, hwf, hb1]
  constructor
  · rw [findAnchorRange, hback, hfwd]
  · rw [findAnchorRange, hback, hfwd]
    rfl

/-- Claim C8 — when no neighboring node on one side of a position matches the
value, the corresponding bound returned by the resolver is the position
itself; in particular with no matching node around the position at all
(including a position inside a non-matching text node, e.g. a stale
selection attribute), the result is a zero-width range at the position. -/
theorem findBound_nomatch_collapses (d : Doc) (v : Option AttrValue) (i off : Nat) :
    ((i = 0 ∨ matchesAt d (i - 1) v = false) →
       findBound d (.between i) v true = .between i) ∧
    (matchesAt d i v = false →
       findBound d (.between i) v false = .between i) ∧
    (matchesAt d i v = false →
       findAnchorRange d (.inside i off) v = ⟨.inside i off, .inside i off⟩) := by
  refine ⟨?_, ?_, ?_⟩
  · intro h
    rcases h with h0 | hm
    · simp [findBound, startNode, h0]
    · by_cases hi0 : i = 0
      · simp [findBound, startNode, hi0]
      · simp [findBound, startNode, hi0, walkBack_nomatch d v (i - 1) hm]
  · intro hm
    by_cases hil : i < d.length
    · simp [findBound, startNode, hil, walkFwd, walkFwdAux_nomatch d v _ i hm]
    · simp [findBound, startNode, hil]
  · intro hm
    have hwb := walkBack_nomatch d v i hm
    have hwf := walkFwdAux_nomatch d v (d.length - i) i hm
    simp [findAnchorRange, findBound, startNode, hwb, walkFwd, hwf]

/-- Claim C9 — the resolver's walk treats a node as matching the target value
`v` exactly when the node carries the `anchorId` attribute with an equal
string value (hypothesis: the node's `anchorId` attribute, when present,
holds a string, which is all this plugin ever stores there); the node's kind
(text vs. embedded element) and its text data never affect the decision, and
a node lacking the attribute never matches. -/
theorem matchesAt_iff_attr_eq (d : Doc) (j : Nat) (n : Node) (v : String)
    (hj : d[j]? = some n)
    (hstr : ∀ w, getAttr n "anchorId" = some w → ∃ s, w = AttrValue.str s) :
    (matchesAt d j (some (.str v)) = true ↔ getAttr n "anchorId" = some (.str v)) ∧
      (∀ k dt, jsEq (getAttr { kind := k, data := dt, attrs := n.attrs } "anchorId")
          (some (.str v))
        = jsEq (getAttr n "anchorId") (some (.str v))) ∧
      (getAttr n "anchorId" = none → matchesAt d j (some (.str v)) = false) := by
  refine ⟨?_, fun k dt => rfl, ?_⟩
  · unfold matchesAt
    rw [hj]
    cases hw : getAttr n "anchorId" with
    | none => simp [jsEq, hw]
    | some w =>
      obtain ⟨s, rfl⟩ := hstr w hw
      simp [jsEq, hw]
  · intro hnone
    unfold matchesAt
    rw [hj]
    simp [jsEq, hnone]

/-! Lemmas about getValidRanges. -/

theorem coveredByRuns_cons (s e : Nat) (rest : List (Nat × Nat)) (j : Nat) :
    coveredByRuns ((s, e) :: rest) j = true ↔
      ((s ≤ j ∧ j < e) ∨ coveredByRuns rest j = true) := by
  simp [coveredByRuns]

theorem validRunsAux_wf (ok : Nat → Bool) (fuel : Nat) :
    ∀ a b pr, pr ∈ validRunsAux ok fuel a b → a ≤ pr.1 ∧ pr.1 < pr.2 ∧ pr.2 ≤ b := by
  induction fuel with
  | zero => intro a b pr hpr; simp [validRunsAux] at hpr
  | succ fuel ih =>
    intro a b pr hpr
    unfold validRunsAux at hpr
    by_cases hab : a < b
    · rw [if_pos hab] at hpr
      by_cases hok : ok a
      · rw [if_pos hok] at hpr
        cases hrec : validRunsAux ok fuel (a + 1) b with
        | nil =>
          rw [hrec] at hpr
          simp at hpr
          subst hpr
          exact ⟨Nat.le_refl a, by omega, by omega⟩
        | cons hd rest =>
          rcases hd with ⟨s, e⟩
          rw [hrec] at hpr
          have hhd := ih (a + 1) b (s, e) (by rw [hrec]; exact List.mem_cons_self _ _)
          by_cases hs : s = a + 1
          · simp only [hs, if_pos rfl] at hpr
            rcases List.mem_cons.mp hpr with h | h
            · subst h
              exact ⟨Nat.le_refl a, by omega, by omega⟩
            · have := ih (a + 1) b pr (by rw [hrec]; exact List.mem_cons_of_mem _ h)
              exact ⟨by omega, this.2.1, this.2.2⟩
          · simp only [if_neg hs] at hpr
            rcases List.mem_cons.mp hpr with h | h
            · subst h
              exact ⟨Nat.le_refl a, by omega, by omega⟩
            · have := ih (a + 1) b pr (by rw [hrec]; exact h)
              exact ⟨by omega, this.2.1, this.2.2⟩
      · rw [if_neg hok] at hpr
        have := ih (a + 1) b pr hpr
        exact ⟨by omega, this.2.1, this.2.2⟩
    · rw [if_neg hab] at hpr
      simp at hpr

theorem validRunsAux_covered (ok : Nat → Bool) (fuel : Nat) :
    ∀ a b j, b - a ≤ fuel →
      (coveredByRuns (validRunsAux ok fuel a b) j = true ↔
        (a ≤ j ∧ j < b ∧ ok j = true)) := by
  induction fuel with
  | zero =>
    intro a b j hfuel
    simp only [validRunsAux, coveredByRuns, List.any_nil]
    constructor
    · intro h; simp at h
    · intro ⟨h1, h2, _⟩; omega
  | succ fuel ih =>
    intro a b j hfuel
    unfold validRunsAux
    by_cases hab : a < b
    · rw [if_pos hab]
      by_cases hok : ok a
      · rw [if_pos hok]
        cases hrec : validRunsAux ok fuel (a + 1) b with
        | nil =>
          have hcov := ih (a + 1) b j (by omega)
          rw [hrec] at hcov
          simp only [coveredByRuns, List.any_nil] at hcov
          dsimp only
          rw [coveredByRuns_cons]
          constructor
          · intro h
            rcases h with ⟨h1, h2⟩ | h
            · have hj : j = a := by omega
              subst hj
              exact ⟨Nat.le_refl j, hab, hok⟩
            · simp [coveredByRuns] at h
          · intro ⟨h1, h2, h3⟩
            by_cases hja : j = a
            · subst hja; exact Or.inl ⟨Nat.le_refl j, by omega⟩
            · exact absurd (hcov.mpr ⟨by omega, h2, h3⟩) (by simp)
        | cons hd rest =>
          rcases hd with ⟨s, e⟩
          have hcov := ih (a + 1) b j (by omega)
          rw [hrec] at hcov
          have hhd := validRunsAux_wf ok fuel (a + 1) b (s, e)
            (by rw [hrec]; exact List.mem_cons_self _ _)
          rw [coveredByRuns_cons] at hcov
          dsimp only
          by_cases hs : s = a + 1
          · subst hs
            rw [if_pos rfl, coveredByRuns_cons]
            constructor
            · intro h
              rcases h with ⟨h1, h2⟩ | h
              · by_cases hja : j = a
                · subst hja; exact ⟨Nat.le_refl j, hab, hok⟩
                · have := hcov.mp (Or.inl ⟨by omega, h2⟩)
                  exact ⟨by omega, this.2.1, this.2.2⟩
              · have := hcov.mp (Or.inr h)
                exact ⟨by omega, this.2.1, this.2.2⟩
            · intro ⟨h1, h2, h3⟩
              by_cases hja : j = a
              · subst hja
                exact Or.inl ⟨Nat.le_refl j, by omega⟩
              · rcases hcov.mpr ⟨by omega, h2, h3⟩ with ⟨h4, h5⟩ | h
                · exact Or.inl ⟨by omega, h5⟩
                · exact Or.inr h
          · simp only [if_neg hs]
            rw [coveredByRuns_cons, coveredByRuns_cons]
            constructor
            · intro h
              rcases h with ⟨h1, h2⟩ | h
              · have hja : j = a := by omega
                subst hja
                exact ⟨Nat.le_refl j, hab, hok⟩
              · have := hcov.mp h
                exact ⟨by omega, this.2.1, this.2.2⟩
            · intro ⟨h1, h2, h3⟩
              by_cases hja : j = a
              · subst hja
                exact Or.inl ⟨Nat.le_refl j, by omega⟩
              · exact Or.inr (hcov.mpr ⟨by omega, h2, h3⟩)
      · rw [if_neg hok]
        have hcov := ih (a + 1) b j (by omega)
        rw [hcov]
        constructor
        · intro ⟨h1, h2, h3⟩
          exact ⟨by omega, h2, h3⟩
        · intro ⟨h1, h2, h3⟩
          by_cases hja : j = a
          · subst hja; exact absurd h3 (by simp [hok])
          · exact ⟨by omega, h2, h3⟩
    · rw [if_neg hab]
      simp only [coveredByRuns, List.any_nil]
      constructor
      · intro h; simp at h
      · intro ⟨h1, h2, _⟩; omega

theorem validRuns_covered (ok : Nat → Bool) (a b j : Nat) :
    coveredByRuns (validRuns ok a b) j = true ↔ (a ≤ j ∧ j < b ∧ ok j = true) :=
  validRunsAux_covered ok (b - a) a b j (Nat.le_refl _)

theorem coveredByAny_map_between (runs : List (Nat × Nat)) (j : Nat) :
    coveredByAny (runs.map
        (fun pr => ModelRange.mk (.between pr.1) (.between pr.2))) j
      = coveredByRuns runs j := by
  induction runs with
  | nil => rfl
  | cons pr rest ih =>
    rcases pr with ⟨s, e⟩
    simp only [List.map_cons, coveredByAny, List.any_cons, coveredNodes_between] at ih ⊢
    rw [ih]
    simp [coveredByRuns, List.any_cons]

theorem coveredByAny_getValidRanges (allows : NodeKind → Bool) (d : Doc)
    (rs : List ModelRange) (j : Nat)
    (haligned : ∀ r ∈ rs, ∃ a b, r = ⟨.between a, .between b⟩) :
    coveredByAny (getValidRanges allows d rs) j = true ↔
      (coveredByAny rs j = true ∧ allowsAt allows d j = true) := by
  induction rs with
  | nil => simp [getValidRanges, coveredByAny]
  | cons r rest ih =>
    obtain ⟨a, b, rfl⟩ := haligned r (List.mem_cons_self _ _)
    have ihrest := ih (fun r' hr' => haligned r' (List.mem_cons_of_mem _ hr'))
    have hsplit : getValidRanges allows d (ModelRange.mk (.between a) (.between b) :: rest) =
        ((validRuns (fun i => allowsAt allows d i) a b).map
          (fun pr => ModelRange.mk (.between pr.1) (.between pr.2)))
          ++ getValidRanges allows d rest := by
      simp [getValidRanges]
    rw [hsplit]
    have hblock : coveredByAny
        ((validRuns (fun i => allowsAt allows d i) a b).map
          (fun pr => ModelRange.mk (.between pr.1) (.between pr.2))) j = true ↔
        (a ≤ j ∧ j < b ∧ allowsAt allows d j = true) := by
      rw [coveredByAny_map_between, validRuns_covered]
    have hhead : (ModelRange.mk (.between a) (.between b)).coveredNodes.contains j = true ↔
        (a ≤ j ∧ j < b) := by
      rw [coveredNodes_between]; simp
    constructor
    · intro h
      simp only [coveredByAny, List.any_append, Bool.or_eq_true] at h
      rcases h with h | h
      · have hb := hblock.mp h
        refine ⟨?_, hb.2.2⟩
        simp only [coveredByAny, List.any_cons, Bool.or_eq_true]
        exact Or.inl (hhead.mpr ⟨hb.1, hb.2.1⟩)
      · have hr := ihrest.mp h
        refine ⟨?_, hr.2⟩
        simp only [coveredByAny, List.any_cons, Bool.or_eq_true]
        exact Or.inr hr.1
    · intro ⟨hcov, hok⟩
      simp only [coveredByAny, List.any_cons, Bool.or_eq_true] at hcov
      simp only [coveredByAny, List.any_append, Bool.or_eq_true]
      rcases hcov with h | h
      · have hab := hhead.mp h
        exact Or.inl (hblock.mpr ⟨hab.1, hab.2, hok⟩)
      · exact Or.inr (ihrest.mpr ⟨h, hok⟩)

/-! Path equations for the two commands, and decorator-name lemmas. -/

theorem anchorExecute_collapsed_eq (allows : NodeKind → Bool) (st : EditorState) (id : String)
    (flags : List (String × Bool)) (v : AttrValue)
    (hc : st.sel.isCollapsed = true)
    (hattr : lookupAttr st.sel.attrs "anchorId" = some v) :
    anchorExecute allows st id flags =
      { doc := applyAnchorToRange id (truthyNames flags) (falsyNames flags) st.doc
          (findAnchorRange st.doc st.sel.getFirstPosition (some v)),
        sel := { ranges := [findAnchorRange st.doc st.sel.getFirstPosition (some v)],
                 attrs := [] } } := by
  unfold anchorExecute
  rw [if_pos hc, hattr]

theorem anchorExecute_insert_eq (allows : NodeKind → Bool) (st : EditorState) (id : String)
    (flags : List (String × Bool))
    (hc : st.sel.isCollapsed = true)
    (hattr : lookupAttr st.sel.attrs "anchorId" = none)
    (hid : id ≠ "") :
    anchorExecute allows st id flags = insertNewAnchorState st id flags := by
  unfold anchorExecute insertNewAnchorState
  rw [if_pos hc, hattr]
  simp only [if_pos hid]

theorem anchorExecute_noop_eq (allows : NodeKind → Bool) (st : EditorState)
    (flags : List (String × Bool))
    (hc : st.sel.isCollapsed = true)
    (hattr : lookupAttr st.sel.attrs "anchorId" = none) :
    anchorExecute allows st "" flags = st := by
  unfold anchorExecute
  rw [if_pos hc, hattr]
  simp

theorem anchorExecute_ranged_eq (allows : NodeKind → Bool) (st : EditorState) (id : String)
    (flags : List (String × Bool))
    (hc : st.sel.isCollapsed = false) :
    anchorExecute allows st id flags =
      { doc := (getValidRanges allows st.doc st.sel.ranges).foldl
          (applyAnchorToRange id (truthyNames flags) (falsyNames flags)) st.doc,
        sel := st.sel } := by
  unfold anchorExecute
  rw [if_neg (by simp [hc])]

theorem unanchorExecute_collapsed_eq (st : EditorState) (decs : Option (List String))
    (hc : st.sel.isCollapsed = true) :
    unanchorExecute st decs =
      { st with doc := (unanchorOneRange decs st.doc
          (findAnchorRange st.doc st.sel.getFirstPosition
            (lookupAttr st.sel.attrs "anchorId"))) } := by
  unfold unanchorExecute
  rw [if_pos hc]
  rfl

theorem unanchorExecute_ranged_eq (st : EditorState) (decs : Option (List String))
    (hc : st.sel.isCollapsed = false) :
    unanchorExecute st decs =
      { st with doc := st.sel.ranges.foldl (unanchorOneRange decs) st.doc } := by
  unfold unanchorExecute
  rw [if_neg (by simp [hc])]

theorem mem_truthyNames (flags : List (String × Bool)) (name : String) :
    name ∈ truthyNames flags ↔ (name, true) ∈ flags := by
  unfold truthyNames
  rw [List.mem_filterMap]
  constructor
  · intro ⟨p, hp, hpe⟩
    rcases p with ⟨pn, pb⟩
    cases pb
    · simp at hpe
    · simp at hpe
      exact hpe ▸ hp
  · intro h
    exact ⟨(name, true), h, by simp⟩

theorem mem_falsyNames (flags : List (String × Bool)) (name : String) :
    name ∈ falsyNames flags ↔ (name, false) ∈ flags := by
  unfold falsyNames
  rw [List.mem_filterMap]
  constructor
  · intro ⟨p, hp, hpe⟩
    rcases p with ⟨pn, pb⟩
    cases pb
    · simp at hpe
      exact hpe ▸ hp
    · simp at hpe
  · intro h
    exact ⟨(name, false), h, by simp⟩

theorem truthyNames_sub_keys (flags : List (String × Bool)) (name : String)
    (h : name ∈ truthyNames flags) : name ∈ flags.map Prod.fst := by
  rcases (mem_truthyNames flags name).mp h with hm
  exact List.mem_map.mpr ⟨(name, true), hm, rfl⟩

theorem falsyNames_sub_keys (flags : List (String × Bool)) (name : String)
    (h : name ∈ falsyNames flags) : name ∈ flags.map Prod.fst := by
  rcases (mem_falsyNames flags name).mp h with hm
  exact List.mem_map.mpr ⟨(name, false), hm, rfl⟩

theorem keys_nodup_unique (flags : List (String × Bool)) (name : String) (b1 b2 : Bool)
    (hnd : (flags.map Prod.fst).Nodup) (h1 : (name, b1) ∈ flags) (h2 : (name, b2) ∈ flags) :
    b1 = b2 := by
  induction flags with
  | nil => simp at h1
  | cons q rest ih =>
    rw [List.map_cons] at hnd
    obtain ⟨hq, hrest⟩ := List.nodup_cons.mp hnd
    rcases List.mem_cons.mp h1 with h1' | h1' <;> rcases List.mem_cons.mp h2 with h2' | h2'
    · rw [← h2'] at h1'
      exact congrArg Prod.snd h1'
    · exfalso
      apply hq
      rw [← h1']
      exact List.mem_map.mpr ⟨(name, b2), h2', rfl⟩
    · exfalso
      apply hq
      rw [← h2']
      exact List.mem_map.mpr ⟨(name, b1), h1', rfl⟩
    · exact ih hrest h1' h2'

theorem flags_true_not_falsy (flags : List (String × Bool)) (name : String)
    (hnd : (flags.map Prod.fst).Nodup) (ht : (name, true) ∈ flags) :
    name ∉ falsyNames flags := by
  intro hf
  have hfm := (mem_falsyNames flags name).mp hf
  exact absurd (keys_nodup_unique flags name true false hnd ht hfm) (by simp)

theorem flags_false_not_truthy (flags : List (String × Bool)) (name : String)
    (hnd : (flags.map Prod.fst).Nodup) (hf : (name, false) ∈ flags) :
    name ∉ truthyNames flags := by
  intro ht
  have htm := (mem_truthyNames flags name).mp ht
  exact absurd (keys_nodup_unique flags name false true hnd hf htm) (by simp)

theorem anchorTargetAttr_spec (n : Node) (id : String) (flags : List (String × Bool))
    (hkeys : "anchorId" ∉ flags.map Prod.fst)
    (hnd : (flags.map Prod.fst).Nodup) :
    anchorTargetAttr n id (truthyNames flags) (falsyNames flags) "anchorId"
        = some (.str id) ∧
      (∀ name, (name, true) ∈ flags →
        anchorTargetAttr n id (truthyNames flags) (falsyNames flags) name
          = some (.boolean true)) ∧
      (∀ name, (name, false) ∈ flags →
        anchorTargetAttr n id (truthyNames flags) (falsyNames flags) name = none) ∧
      (∀ k, k ∉ flags.map Prod.fst → k ≠ "anchorId" →
        anchorTargetAttr n id (truthyNames flags) (falsyNames flags) k = getAttr n k) := by
  refine ⟨?_, ?_, ?_, ?_⟩
  · have hf : "anchorId" ∉ falsyNames flags := fun hmem => hkeys (falsyNames_sub_keys _ _ hmem)
    have ht : "anchorId" ∉ truthyNames flags := fun hmem => hkeys (truthyNames_sub_keys _ _ hmem)
    simp [anchorTargetAttr, hf, ht]
  · intro name hname
    have ht : name ∈ truthyNames flags := (mem_truthyNames _ _).mpr hname
    have hf : name ∉ falsyNames flags := flags_true_not_falsy _ _ hnd hname
    simp [anchorTargetAttr, ht, hf]
  · intro name hname
    have hf : name ∈ falsyNames flags := (mem_falsyNames _ _).mpr hname
    simp [anchorTargetAttr, hf]
  · intro k hk hkid
    have ht : k ∉ truthyNames flags := fun hmem => hk (truthyNames_sub_keys _ _ hmem)
    have hf : k ∉ falsyNames flags := fun hmem => hk (falsyNames_sub_keys _ _ hmem)
    simp [anchorTargetAttr, ht, hf, hkid]

theorem anchorExecute_span_spec (allows : NodeKind → Bool) (st : EditorState) (id : String)
    (flags : List (String × Bool)) (a b : Nat) (v : AttrValue)
    (hc : st.sel.isCollapsed = true)
    (hattr : lookupAttr st.sel.attrs "anchorId" = some v)
    (hrun : IsRun st.doc a b (some v))
    (hp : StrictlyInside st.sel.getFirstPosition a b)
    (hkeys : "anchorId" ∉ flags.map Prod.fst)
    (hnd : (flags.map Prod.fst).Nodup) :
    (∀ j, a ≤ j → j < b → ∀ n, st.doc[j]? = some n →
      ∃ n', (anchorExecute allows st id flags).doc[j]? = some n' ∧
        getAttr n' "anchorId" = some (.str id) ∧
        (∀ name, (name, true) ∈ flags → getAttr n' name = some (.boolean true)) ∧
        (∀ name, (name, false) ∈ flags → getAttr n' name = none) ∧
        (∀ k, k ∉ flags.map Prod.fst → k ≠ "anchorId" → getAttr n' k = getAttr n k)) ∧
    (∀ j, j < a ∨ b ≤ j → (anchorExecute allows st id flags).doc[j]? = st.doc[j]?) ∧
    (anchorExecute allows st id flags).sel.ranges = [⟨.between a, .between b⟩] := by
  have hspan := (findAnchorRange_covers_run st.doc (some v) a b st.sel.getFirstPosition hrun hp).1
  have heq := anchorExecute_collapsed_eq allows st id flags v hc hattr
  rw [heq]
  dsimp only
  rw [hspan]
  refine ⟨?_, ?_, rfl⟩
  · intro j haj hjb n hn
    have hcov : (ModelRange.mk (.between a) (.between b)).coveredNodes.contains j = true := by
      rw [coveredNodes_between]; simp [haj, hjb]
    obtain ⟨h1, h2, h3, h4⟩ := anchorTargetAttr_spec n id flags hkeys hnd
    refine ⟨applyAnchorAttrs n id (truthyNames flags) (falsyNames flags), ?_, ?_, ?_, ?_, ?_⟩
    · rw [applyAnchorToRange_getElem, hn]
      simp only [Option.map_some']
      rw [if_pos hcov]
    · rw [getAttr_applyAnchorAttrs]; exact h1
    · intro name hname
      rw [getAttr_applyAnchorAttrs]; exact h2 name hname
    · intro name hname
      rw [getAttr_applyAnchorAttrs]; exact h3 name hname
    · intro k hk hkid
      rw [getAttr_applyAnchorAttrs]; exact h4 k hk hkid
  · intro j hj
    have hcov : (ModelRange.mk (.between a) (.between b)).coveredNodes.contains j = false := by
      rw [coveredNodes_between]
      rcases hj with h | h <;> simp <;> omega
    rw [applyAnchorToRange_getElem]
    have hne : ¬ ((ModelRange.mk (.between a) (.between b)).coveredNodes.contains j = true) := by
      rw [hcov]; simp
    cases hd : st.doc[j]? <;> simp only [Option.map_some', Option.map_none', if_neg hne]

/-- Claim C2 — for a collapsed selection inside text carrying the `anchorId`
attribute (the maximal run being nodes `[a, b)` with value `v`), executing
the anchor command with a new identifier and decorator flags resolves the
full span, sets `anchorId` to the new identifier on every node of the span,
sets each flagged-true decorator attribute to `true` and removes each
flagged-false decorator attribute over the same span (other attributes and
all nodes outside the span unchanged), and sets the selection to cover
exactly the resolved span. -/
theorem anchorCommand_collapsed_span (allows : NodeKind → Bool) (st : EditorState) (id : String)
    (flags : List (String × Bool)) (a b : Nat) (v : AttrValue)
    (hc : st.sel.isCollapsed = true)
    (hattr : lookupAttr st.sel.attrs "anchorId" = some v)
    (hrun : IsRun st.doc a b (some v))
    (hp : StrictlyInside st.sel.getFirstPosition a b)
    (hkeys : "anchorId" ∉ flags.map Prod.fst)
    (hnd : (flags.map Prod.fst).Nodup) :
    (∀ j, a ≤ j → j < b → ∀ n, st.doc[j]? = some n →
      ∃ n', (anchorExecute allows st id flags).doc[j]? = some n' ∧
        getAttr n' "anchorId" = some (.str id) ∧
        (∀ name, (name, true) ∈ flags → getAttr n' name = some (.boolean true)) ∧
        (∀ name, (name, false) ∈ flags → getAttr n' name = none) ∧
        (∀ k, k ∉ flags.map Prod.fst → k ≠ "anchorId" → getAttr n' k = getAttr n k)) ∧
    (∀ j, j < a ∨ b ≤ j → (anchorExecute allows st id flags).doc[j]? = st.doc[j]?) ∧
    (anchorExecute allows st id flags).sel.ranges = [⟨.between a, .between b⟩] :=
  anchorExecute_span_spec allows st id flags a b v hc hattr hrun hp hkeys hnd

/-- Claim C10 — executing the anchor command with the empty string as
identifier while the collapsed selection is inside an existing anchor span
does not hit the empty-identifier guard: the command sets `anchorId` to the
empty string across the whole resolved span, applies the decorator changes,
and moves the selection to the span, instead of doing nothing. -/
theorem anchorCommand_empty_id_inside_span (allows : NodeKind → Bool) (st : EditorState)
    (flags : List (String × Bool)) (a b : Nat) (v : AttrValue)
    (hc : st.sel.isCollapsed = true)
    (hattr : lookupAttr st.sel.attrs "anchorId" = some v)
    (hrun : IsRun st.doc a b (some v))
    (hp : StrictlyInside st.sel.getFirstPosition a b)
    (hkeys : "anchorId" ∉ flags.map Prod.fst)
    (hnd : (flags.map Prod.fst).Nodup) :
    (∀ j, a ≤ j → j < b → ∀ n, st.doc[j]? = some n →
      ∃ n', (anchorExecute allows st "" flags).doc[j]? = some n' ∧
        getAttr n' "anchorId" = some (.str "") ∧
        (∀ name, (name, true) ∈ flags → getAttr n' name = some (.boolean true)) ∧
        (∀ name, (name, false) ∈ flags → getAttr n' name = none)) ∧
    (anchorExecute allows st "" flags).sel.ranges = [⟨.between a, .between b⟩] := by
  obtain ⟨hmain, _, hsel⟩ :=
    anchorExecute_span_spec allows st "" flags a b v hc hattr hrun hp hkeys hnd
  refine ⟨?_, hsel⟩
  intro j haj hjb n hn
  obtain ⟨n', hn', hid, htr, hfa, _⟩ := hmain j haj hjb n hn
  exact ⟨n', hn', hid, htr, hfa⟩

/-- Claim C6 — executing the anchor command with the empty string as
identifier, when the selection is collapsed and not inside an anchor span,
leaves the document (and the whole editor state) unchanged. -/
theorem anchorCommand_empty_id_noop (allows : NodeKind → Bool) (st : EditorState)
    (flags : List (String × Bool))
    (hc : st.sel.isCollapsed = true)
    (hattr : lookupAttr st.sel.attrs "anchorId" = none) :
    (anchorExecute allows st "" flags).doc = st.doc ∧
      anchorExecute allows st "" flags = st :=
  ⟨by rw [anchorExecute_noop_eq allows st flags hc hattr],
   anchorExecute_noop_eq allows st flags hc hattr⟩

/-- Claim C3 — for a non-collapsed selection over node-aligned ranges, the
anchor command applies `anchorId` (and the decorator additions/removals)
exactly on the nodes of the selected ranges on which the schema permits the
`anchorId` attribute; covered nodes disallowing the attribute, and all
uncovered nodes, are left with their attributes unchanged, and the selection
itself is not modified. -/
theorem anchorCommand_noncollapsed_valid_ranges (allows : NodeKind → Bool) (st : EditorState)
    (id : String) (flags : List (String × Bool))
    (hc : st.sel.isCollapsed = false)
    (haligned : ∀ r ∈ st.sel.ranges, ∃ a b, r = ⟨.between a, .between b⟩)
    (hkeys : "anchorId" ∉ flags.map Prod.fst)
    (hnd : (flags.map Prod.fst).Nodup) :
    (∀ j n, st.doc[j]? = some n → coveredByAny st.sel.ranges j = true →
      allows n.kind = true →
      ∃ n', (anchorExecute allows st id flags).doc[j]? = some n' ∧
        getAttr n' "anchorId" = some (.str id) ∧
        (∀ name, (name, true) ∈ flags → getAttr n' name = some (.boolean true)) ∧
        (∀ name, (name, false) ∈ flags → getAttr n' name = none) ∧
        (∀ k, k ∉ flags.map Prod.fst → k ≠ "anchorId" → getAttr n' k = getAttr n k)) ∧
    (∀ j n, st.doc[j]? = some n →
      (coveredByAny st.sel.ranges j = false ∨ allows n.kind = false) →
      (anchorExecute allows st id flags).doc[j]? = some n) ∧
    (anchorExecute allows st id flags).sel = st.sel := by
  have heq := anchorExecute_ranged_eq allows st id flags hc
  rw [heq]
  dsimp only
  refine ⟨?_, ?_, rfl⟩
  · intro j n hn hcov hallow
    have hvr : coveredByAny (getValidRanges allows st.doc st.sel.ranges) j = true :=
      (coveredByAny_getValidRanges allows st.doc st.sel.ranges j haligned).mpr
        ⟨hcov, by unfold allowsAt; rw [hn]; exact hallow⟩
    obtain ⟨h1, h2, h3, h4⟩ := anchorTargetAttr_spec n id flags hkeys hnd
    rw [foldl_anchorRanges_getElem, hn]
    refine ⟨_, rfl, ?_, ?_, ?_, ?_⟩
    · rw [foldl_anchorNode_covered _ _ _ _ _ _ _ hvr]; exact h1
    · intro name hname
      rw [foldl_anchorNode_covered _ _ _ _ _ _ _ hvr]; exact h2 name hname
    · intro name hname
      rw [foldl_anchorNode_covered _ _ _ _ _ _ _ hvr]; exact h3 name hname
    · intro k hk hkid
      rw [foldl_anchorNode_covered _ _ _ _ _ _ _ hvr]; exact h4 k hk hkid
  · intro j n hn hside
    have hvr : coveredByAny (getValidRanges allows st.doc st.sel.ranges) j = false := by
      cases htest : coveredByAny (getValidRanges allows st.doc st.sel.ranges) j
      · rfl
      · obtain ⟨hcov', hallow'⟩ :=
          (coveredByAny_getValidRanges allows st.doc st.sel.ranges j haligned).mp htest
        unfold allowsAt at hallow'
        rw [hn] at hallow'
        dsimp only at hallow'
        rcases hside with h | h
        · rw [h] at hcov'; cases hcov'
        · rw [h] at hallow'; cases hallow'
    rw [foldl_anchorRanges_getElem, hn]
    simp only [Option.map_some']
    rw [foldl_anchorNode_notCovered _ _ _ _ _ _ hvr]

/-! Helper lemmas for the insertion path and the unanchor command. -/

theorem lookupAttr_foldl_setAttrList (names : List String) (l : List (String × AttrValue))
    (v : AttrValue) (k : String) :
    lookupAttr (names.foldl (fun m item => setAttrList m item v) l) k =
      if k ∈ names then some v else lookupAttr l k := by
  induction names generalizing l with
  | nil => simp
  | cons x xs ih =>
    by_cases hxs : k ∈ xs
    · simp [List.foldl_cons, ih, hxs]
    · by_cases hx : x = k
      · simp [List.foldl_cons, ih, hxs, hx, lookupAttr_setAttrList]
      · have : ¬ k ∈ x :: xs := by
          intro hmem
          rcases List.mem_cons.mp hmem with h | h
          · exact hx h.symm
          · exact hxs h
        simp [List.foldl_cons, ih, hxs, this, lookupAttr_setAttrList, hx]

theorem mem_doc_getElem (d : Doc) (n : Node) (h : n ∈ d) : ∃ i : Nat, d[i]? = some n := by
  obtain ⟨i, hi, he⟩ := List.getElem_of_mem h
  refine ⟨i, ?_⟩
  rw [List.getElem?_eq_getElem hi, he]

theorem getElem_doc_mem (d : Doc) (i : Nat) (n : Node) (h : d[i]? = some n) : n ∈ d := by
  obtain ⟨hlt, he⟩ := List.getElem?_eq_some.mp h
  exact he ▸ List.getElem_mem hlt

theorem insertContentAt_mem (d : Doc) (p : Position) (nd : Node) (n' : Node)
    (h : n' ∈ (insertContentAt d p nd).1) :
    n' = nd ∨ ∃ n ∈ d, n'.attrs = n.attrs := by
  unfold insertContentAt at h
  cases p with
  | between i =>
    dsimp only at h
    rcases List.mem_append.mp h with h | h
    · exact Or.inr ⟨n', List.take_subset _ _ h, rfl⟩
    · rcases List.mem_cons.mp h with h | h
      · exact Or.inl h
      · exact Or.inr ⟨n', List.drop_subset _ _ h, rfl⟩
  | inside i off =>
    dsimp only at h
    cases hd : d[i]? with
    | some tn =>
      rw [hd] at h
      dsimp only at h
      have htn : tn ∈ d := getElem_doc_mem d i tn hd
      rcases List.mem_append.mp h with h | h
      · exact Or.inr ⟨n', List.take_subset _ _ h, rfl⟩
      · rcases List.mem_cons.mp h with h | h
        · exact Or.inr ⟨tn, htn, by rw [h]⟩
        · rcases List.mem_cons.mp h with h | h
          · exact Or.inl h
          · rcases List.mem_cons.mp h with h | h
            · exact Or.inr ⟨tn, htn, by rw [h]⟩
            · exact Or.inr ⟨n', List.drop_subset _ _ h, rfl⟩
    | none =>
      rw [hd] at h
      dsimp only at h
      rcases List.mem_append.mp h with h | h
      · exact Or.inr ⟨n', h, rfl⟩
      · rcases List.mem_cons.mp h with h | h
        · exact Or.inl h
        · simp at h

/-- Claim C4 — the unanchor command removes the `anchorId` attribute and
every decorator attribute declared in the registered anchor command's
decorator collection (whatever each decorator's current value is) from all
target ranges: the resolved span around a collapsed selection, or the
selected ranges taken directly, without schema filtering, when the selection
is non-collapsed; nodes outside the target ranges are unchanged. -/
theorem unanchorCommand_removes_all (st : EditorState) (decs : List String) :
    (∀ (a b : Nat) (v : AttrValue),
      st.sel.isCollapsed = true →
      lookupAttr st.sel.attrs "anchorId" = some v →
      IsRun st.doc a b (some v) →
      StrictlyInside st.sel.getFirstPosition a b →
      (∀ j, a ≤ j → j < b → ∀ n, st.doc[j]? = some n →
        ∃ n', (unanchorExecute st (some decs)).doc[j]? = some n' ∧
          getAttr n' "anchorId" = none ∧
          (∀ dec ∈ decs, getAttr n' dec = none) ∧
          (∀ k, k ≠ "anchorId" → k ∉ decs → getAttr n' k = getAttr n k)) ∧
      (∀ j, j < a ∨ b ≤ j → (unanchorExecute st (some decs)).doc[j]? = st.doc[j]?)) ∧
    (st.sel.isCollapsed = false →
      (∀ j n, st.doc[j]? = some n → coveredByAny st.sel.ranges j = true →
        ∃ n', (unanchorExecute st (some decs)).doc[j]? = some n' ∧
          getAttr n' "anchorId" = none ∧
          (∀ dec ∈ decs, getAttr n' dec = none) ∧
          (∀ k, k ≠ "anchorId" → k ∉ decs → getAttr n' k = getAttr n k)) ∧
      (∀ j, coveredByAny st.sel.ranges j = false →
        (unanchorExecute st (some decs)).doc[j]? = st.doc[j]?)) := by
  constructor
  · intro a b v hc hattr hrun hp
    have hspan := (findAnchorRange_covers_run st.doc (some v) a b
      st.sel.getFirstPosition hrun hp).1
    have heq := unanchorExecute_collapsed_eq st (some decs) hc
    rw [heq]
    dsimp only
    rw [hattr, hspan]
    constructor
    · intro j haj hjb n hn
      have hcov : (ModelRange.mk (.between a) (.between b)).coveredNodes.contains j = true := by
        rw [coveredNodes_between]; simp [haj, hjb]
      refine ⟨unanchorNodeAttrs n (some decs), ?_, ?_, ?_, ?_⟩
      · rw [unanchorOneRange_getElem, hn]
        simp only [Option.map_some']
        rw [if_pos hcov]
      · rw [getAttr_unanchorNodeAttrs]; simp
      · intro dec hdec
        rw [getAttr_unanchorNodeAttrs]; simp [hdec]
      · intro k hkid hkdec
        rw [getAttr_unanchorNodeAttrs]; simp [hkid, hkdec]
    · intro j hj
      have hcov : (ModelRange.mk (.between a) (.between b)).coveredNodes.contains j = false := by
        rw [coveredNodes_between]
        rcases hj with h | h <;> simp <;> omega
      have hne : ¬ ((ModelRange.mk (.between a) (.between b)).coveredNodes.contains j = true) := by
        rw [hcov]; simp
      rw [unanchorOneRange_getElem]
      cases hd : st.doc[j]? <;> simp only [Option.map_some', Option.map_none', if_neg hne]
  · intro hc
    have heq := unanchorExecute_ranged_eq st (some decs) hc
    rw [heq]
    dsimp only
    constructor
    · intro j n hn hcov
      rw [foldl_unanchorRanges_getElem, hn]
      refine ⟨_, rfl, ?_, ?_, ?_⟩
      · rw [foldl_unanchorNode_covered _ _ _ _ _ hcov]; simp
      · intro dec hdec
        rw [foldl_unanchorNode_covered _ _ _ _ _ hcov]; simp [hdec]
      · intro k hkid hkdec
        rw [foldl_unanchorNode_covered _ _ _ _ _ hcov]; simp [hkid, hkdec]
    · intro j hcov
      rw [foldl_unanchorRanges_getElem]
      cases hd : st.doc[j]?
      · simp
      · simp only [Option.map_some']
        rw [foldl_unanchorNode_notCovered _ _ _ _ hcov]

/-- Claim C5 — whenever a decorator flag is passed as `false` to the anchor
command, no node in the affected ranges ends up carrying that decorator
attribute with value `false`: on the two attribute-update paths the
attribute is removed entirely from every affected node, and on the insertion
path the inserted node never receives it as `false` (given that the ambient
selection attributes and the existing document, which the command copies
from, do not already carry it as `false`): absence is the only off state the
command ever produces. -/
theorem anchorCommand_false_decorator_never_false (allows : NodeKind → Bool)
    (st : EditorState) (id : String) (flags : List (String × Bool)) (name : String)
    (hfl : (name, false) ∈ flags) :
    (∀ v, st.sel.isCollapsed = true → lookupAttr st.sel.attrs "anchorId" = some v →
      ∀ j n', (anchorExecute allows st id flags).doc[j]? = some n' →
        (findAnchorRange st.doc st.sel.getFirstPosition (some v)).coveredNodes.contains j
          = true →
        getAttr n' name = none) ∧
    (st.sel.isCollapsed = false →
      ∀ j n', (anchorExecute allows st id flags).doc[j]? = some n' →
        coveredByAny (getValidRanges allows st.doc st.sel.ranges) j = true →
        getAttr n' name = none) ∧
    (st.sel.isCollapsed = true → lookupAttr st.sel.attrs "anchorId" = none → id ≠ "" →
      (flags.map Prod.fst).Nodup →
      lookupAttr st.sel.attrs name ≠ some (.boolean false) →
      (∀ (j : Nat) (n : Node), st.doc[j]? = some n →
        getAttr n name ≠ some (.boolean false)) →
      ∀ (j : Nat) (n' : Node), (anchorExecute allows st id flags).doc[j]? = some n' →
        getAttr n' name ≠ some (.boolean false)) := by
  have hfalsy : name ∈ falsyNames flags := (mem_falsyNames _ _).mpr hfl
  refine ⟨?_, ?_, ?_⟩
  · intro v hc hattr j n' hn' hcov
    have heq := anchorExecute_collapsed_eq allows st id flags v hc hattr
    rw [heq] at hn'
    dsimp only at hn'
    rw [applyAnchorToRange_getElem] at hn'
    cases hd : st.doc[j]? with
    | none => rw [hd] at hn'; simp at hn'
    | some n =>
      rw [hd] at hn'
      simp only [Option.map_some'] at hn'
      rw [if_pos hcov] at hn'
      have hne : n' = applyAnchorAttrs n id (truthyNames flags) (falsyNames flags) :=
        (Option.some.inj hn').symm
      rw [hne, getAttr_applyAnchorAttrs]
      simp [anchorTargetAttr, hfalsy]
  · intro hc j n' hn' hcov
    have heq := anchorExecute_ranged_eq allows st id flags hc
    rw [heq] at hn'
    dsimp only at hn'
    rw [foldl_anchorRanges_getElem] at hn'
    cases hd : st.doc[j]? with
    | none => rw [hd] at hn'; simp at hn'
    | some n =>
      rw [hd] at hn'
      simp only [Option.map_some'] at hn'
      have hne := (Option.some.inj hn').symm
      rw [hne, foldl_anchorNode_covered _ _ _ _ _ _ name hcov]
      simp [anchorTargetAttr, hfalsy]
  · intro hc hattr hid hnd hamb hdoc j n' hn'
    have heq := anchorExecute_insert_eq allows st id flags hc hattr hid
    rw [heq] at hn'
    have hmem : n' ∈ (insertNewAnchorState st id flags).doc :=
      getElem_doc_mem (insertNewAnchorState st id flags).doc j n' hn'
    unfold insertNewAnchorState at hmem
    dsimp only at hmem
    rcases insertContentAt_mem st.doc st.sel.getFirstPosition _ n' hmem with hnew | ⟨m, hm, hattrs⟩
    · rw [hnew]
      show lookupAttr _ name ≠ some (.boolean false)
      rw [lookupAttr_foldl_setAttrList]
      have hnt : name ∉ truthyNames flags := flags_false_not_truthy _ _ hnd hfl
      rw [if_neg hnt, lookupAttr_setAttrList]
      by_cases hk : "anchorId" = name
      · rw [if_pos hk]; simp
      · rw [if_neg hk]; exact hamb
    · show lookupAttr n'.attrs name ≠ some (.boolean false)
      rw [hattrs]
      obtain ⟨i, hi⟩ := mem_doc_getElem st.doc m hm
      exact hdoc i m hi

/-- Claim C7 — executing the anchor command with a non-empty identifier at a
collapsed caret not inside an anchor span inserts exactly one new text node
at the caret (splitting the enclosing text node when the caret is inside
one): the inserted node's data equals the identifier, its attributes are the
selection's ambient attributes plus `anchorId` (set to the identifier) plus
every decorator flagged `true`, and afterwards the selection wraps exactly
the inserted node. -/
theorem anchorCommand_inserts_node (allows : NodeKind → Bool) (st : EditorState)
    (id : String) (flags : List (String × Bool))
    (hc : st.sel.isCollapsed = true)
    (hattr : lookupAttr st.sel.attrs "anchorId" = none)
    (hid : id ≠ "") :
    (∀ i, st.sel.getFirstPosition = .between i → i ≤ st.doc.length →
      ∃ nd, (anchorExecute allows st id flags).doc = st.doc.take i ++ nd :: st.doc.drop i ∧
        nd.kind = .text ∧ nd.data = id ∧
        (∀ k, getAttr nd k =
          if k ∈ truthyNames flags then some (.boolean true)
          else if k = "anchorId" then some (.str id)
          else lookupAttr st.sel.attrs k) ∧
        (anchorExecute allows st id flags).sel.ranges = [⟨.between i, .between (i + 1)⟩]) ∧
    (∀ i off tn, st.sel.getFirstPosition = .inside i off → st.doc[i]? = some tn →
      ∃ nd, (anchorExecute allows st id flags).doc =
          st.doc.take i ++ { tn with data := tn.data.take off } :: nd ::
            { tn with data := tn.data.drop off } :: st.doc.drop (i + 1) ∧
        nd.kind = .text ∧ nd.data = id ∧
        (∀ k, getAttr nd k =
          if k ∈ truthyNames flags then some (.boolean true)
          else if k = "anchorId" then some (.str id)
          else lookupAttr st.sel.attrs k) ∧
        (anchorExecute allows st id flags).sel.ranges
          = [⟨.between (i + 1), .between (i + 2)⟩]) := by
  have heq := anchorExecute_insert_eq allows st id flags hc hattr hid
  have hlook : ∀ k, getAttr
      { kind := NodeKind.text, data := id,
        attrs := (truthyNames flags).foldl (fun m item => setAttrList m item (.boolean true))
          (setAttrList st.sel.attrs "anchorId" (.str id)) } k =
      if k ∈ truthyNames flags then some (.boolean true)
      else if k = "anchorId" then some (.str id)
      else lookupAttr st.sel.attrs k := by
    intro k
    show lookupAttr _ k = _
    rw [lookupAttr_foldl_setAttrList, lookupAttr_setAttrList]
    by_cases ht : k ∈ truthyNames flags
    · simp [ht]
    · by_cases hk : k = "anchorId"
      · simp [ht, hk]
      · have hk2 : ¬ "anchorId" = k := fun he => hk he.symm
        simp [ht, hk, hk2]
  constructor
  · intro i hpos hlen
    rw [heq]
    unfold insertNewAnchorState
    rw [hpos]
    dsimp only
    unfold insertContentAt
    have hmin : min i st.doc.length = i := Nat.min_eq_left hlen
    refine ⟨_, ?_, rfl, rfl, hlook, ?_⟩
    · dsimp only
      rw [hmin]
    · dsimp only
      rw [hmin]
  · intro i off tn hpos htn
    rw [heq]
    unfold insertNewAnchorState
    rw [hpos]
    dsimp only
    unfold insertContentAt
    dsimp only
    rw [htn]
    exact ⟨_, rfl, rfl, rfl, hlook, rfl⟩

/-! Concrete witness instances. -/

/-- A text node with the given data, carrying `anchorId` with value `v`. -/
def sampleNode (nm v : String) : Node :=
  { kind := .text, data := nm, attrs := [("anchorId", .str v)] }

/-- Three sibling text nodes all carrying `anchorId = "x"`. -/
def docXXX : Doc := [sampleNode "A" "x", sampleNode "B" "x", sampleNode "C" "x"]

/-- A collapsed selection inside node `B` of `docXXX`, with the ambient
`anchorId = "x"` attribute. -/
def stW : EditorState :=
  { doc := docXXX,
    sel := { ranges := [⟨.inside 1 1, .inside 1 1⟩], attrs := [("anchorId", .str "x")] } }

/-- Two text nodes and an embedded element, all carrying `anchorId = "x"`,
with a non-collapsed selection over the last two nodes. -/
def stW3 : EditorState :=
  { doc := [sampleNode "A" "x", sampleNode "B" "x",
      { kind := .element "obj", data := "", attrs := [("anchorId", .str "x")] }],
    sel := { ranges := [⟨.between 1, .between 3⟩], attrs := [] } }

/-- A node with `anchorId = "x"` and decorator `anchorIsExternal = true`. -/
def nodeXE (nm : String) : Node :=
  { kind := .text, data := nm,
    attrs := [("anchorId", .str "x"), ("anchorIsExternal", .boolean true)] }

/-- Two decorated nodes with a collapsed caret inside the first. -/
def stW4 : EditorState :=
  { doc := [nodeXE "A", nodeXE "B"],
    sel := { ranges := [⟨.inside 0 1, .inside 0 1⟩], attrs := [("anchorId", .str "x")] } }

/-- One plain text node with a collapsed caret inside it (no anchor). -/
def stW6 : EditorState :=
  { doc := [{ kind := .text, data := "hi", attrs := [] }],
    sel := { ranges := [⟨.inside 0 1, .inside 0 1⟩], attrs := [] } }

/-- One plain text node with a collapsed caret in the gap after it. -/
def stW7 : EditorState :=
  { doc := [{ kind := .text, data := "hi", attrs := [("bold", .boolean true)] }],
    sel := { ranges := [⟨.between 1, .between 1⟩], attrs := [("bold", .boolean true)] } }

theorem findAnchorRange_covers_run_witness :
    IsRun docXXX 0 3 (some (.str "x")) ∧ StrictlyInside (.inside 1 1) 0 3 ∧
      findAnchorRange docXXX (.inside 1 1) (some (.str "x")) = ⟨.between 0, .between 3⟩ :=
  ⟨by decide, by decide,
   (findAnchorRange_covers_run docXXX (some (.str "x")) 0 3 (.inside 1 1)
     (by decide) (by decide)).1⟩

theorem anchorCommand_collapsed_span_witness :
    (anchorExecute (fun _ => true) stW "y" []).sel.ranges = [⟨.between 0, .between 3⟩] :=
  (anchorCommand_collapsed_span (fun _ => true) stW "y" [] 0 3 (.str "x")
    (by decide) (by decide) (by decide) (by decide) (by decide) (by decide)).2.2

theorem anchorCommand_noncollapsed_valid_ranges_witness :
    (anchorExecute (fun k => k == NodeKind.text) stW3 "z" [("anchorBold", true)]).sel
      = stW3.sel :=
  (anchorCommand_noncollapsed_valid_ranges (fun k => k == NodeKind.text) stW3 "z"
    [("anchorBold", true)] (by decide)
    (fun r hr => by simp only [stW3, List.mem_singleton] at hr; exact ⟨1, 3, hr⟩)
    (by decide) (by decide)).2.2

theorem unanchorCommand_removes_all_witness :
    ∃ n', (unanchorExecute stW4 (some ["anchorIsExternal"])).doc[0]? = some n' ∧
      getAttr n' "anchorId" = none ∧
      (∀ dec ∈ ["anchorIsExternal"], getAttr n' dec = none) ∧
      (∀ k, k ≠ "anchorId" → k ∉ ["anchorIsExternal"] →
        getAttr n' k = getAttr (nodeXE "A") k) :=
  ((unanchorCommand_removes_all stW4 ["anchorIsExternal"]).1 0 2 (.str "x")
    (by decide) (by decide) (by decide) (by decide)).1 0 (by decide) (by decide)
    (nodeXE "A") (by decide)

theorem anchorCommand_false_decorator_never_false_witness :
    (anchorExecute (fun _ => true) stW "y" [("anchorDec", false)]).doc[0]?
        = some { kind := .text, data := "A", attrs := [("anchorId", .str "y")] } ∧
      getAttr { kind := .text, data := "A", attrs := [("anchorId", .str "y")] } "anchorDec"
        = none :=
  ⟨by decide,
   (anchorCommand_false_decorator_never_false (fun _ => true) stW "y" [("anchorDec", false)]
     "anchorDec" (by decide)).1 (.str "x") (by decide) (by decide) 0 _ (by decide) (by decide)⟩

theorem anchorCommand_empty_id_noop_witness :
    anchorExecute (fun _ => true) stW6 "" [] = stW6 :=
  (anchorCommand_empty_id_noop (fun _ => true) stW6 [] (by decide) (by decide)).2

theorem anchorCommand_inserts_node_witness :
    ∃ nd, (anchorExecute (fun _ => true) stW7 "a1" [("anchorIsExternal", true)]).doc
        = stW7.doc.take 1 ++ nd :: stW7.doc.drop 1 ∧
      nd.kind = NodeKind.text ∧ nd.data = "a1" ∧
      (∀ k, getAttr nd k =
        if k ∈ truthyNames [("anchorIsExternal", true)] then some (.boolean true)
        else if k = "anchorId" then some (.str "a1")
        else lookupAttr stW7.sel.attrs k) ∧
      (anchorExecute (fun _ => true) stW7 "a1" [("anchorIsExternal", true)]).sel.ranges
        = [⟨.between 1, .between 2⟩] :=
  (anchorCommand_inserts_node (fun _ => true) stW7 "a1" [("anchorIsExternal", true)]
    (by decide) (by decide) (by decide)).1 1 rfl (by decide)

theorem findBound_nomatch_collapses_witness :
    findAnchorRange docXXX (.inside 1 1) (some (.str "zz")) = ⟨.inside 1 1, .inside 1 1⟩ :=
  (findBound_nomatch_collapses docXXX (some (.str "zz")) 1 1).2.2 (by decide)

theorem matchesAt_iff_attr_eq_witness :
    (matchesAt docXXX 1 (some (.str "x")) = true ↔
      getAttr (sampleNode "B" "x") "anchorId" = some (.str "x")) ∧
      (∀ k dt, jsEq (getAttr { kind := k, data := dt, attrs := (sampleNode "B" "x").attrs }
          "anchorId") (some (.str "x"))
        = jsEq (getAttr (sampleNode "B" "x") "anchorId") (some (.str "x"))) ∧
      (getAttr (sampleNode "B" "x") "anchorId" = none →
        matchesAt docXXX 1 (some (.str "x")) = false) :=
  matchesAt_iff_attr_eq docXXX 1 (sampleNode "B" "x") "x" (by decide)
    (by intro w hw
        rw [show getAttr (sampleNode "B" "x") "anchorId" = some (AttrValue.str "x")
          from by decide] at hw
        exact ⟨"x", (Option.some.inj hw).symm⟩)

theorem anchorCommand_empty_id_inside_span_witness :
    (anchorExecute (fun _ => true) stW "" []).sel.ranges = [⟨.between 0, .between 3⟩] :=
  (anchorCommand_empty_id_inside_span (fun _ => true) stW [] 0 3 (.str "x")
    (by decide) (by decide) (by decide) (by decide) (by decide) (by decide)).2

end Anchor
